/-
  Verification of the Behavioral Statistics & Anomaly Detection Engine
  of the social-autopilot repository (agents/historian.py, state.py).

  The Python functions are shallowly embedded: floats become rationals,
  datetimes become rational epoch seconds together with an hour-of-day
  field (a Python datetime's `hour` is always in 0..23), strings become
  lists of characters, and Python's banker's rounding `round(x, n)`
  becomes `pyRound`.
-/
import Mathlib

namespace SocialAutopilot

/-- Round a rational to the nearest integer, ties to even —
the semantics of Python's built-in `round` on the exact value. -/
def rhe (x : ℚ) : ℤ :=
  if x - ⌊x⌋ < 1/2 then ⌊x⌋
  else if 1/2 < x - ⌊x⌋ then ⌊x⌋ + 1
  else if ⌊x⌋ % 2 = 0 then ⌊x⌋ else ⌊x⌋ + 1

/-- Python's `round(x, n)`: round to `n` decimal places, ties to even. -/
def pyRound (x : ℚ) (n : ℕ) : ℚ :=
  (rhe (x * 10 ^ n) : ℚ) / 10 ^ n

/-- Characters Python's `str.split()` treats as separators
(the ASCII whitespace characters; the chat content is ASCII+emoji). -/
def isPySpace (c : Char) : Bool :=
  c = ' ' || c = '\t' || c = '\n' || c = '\x0d' || c = '\x0b' || c = '\x0c'

/-- Membership in the character class of `EMOJI_PATTERN`
(historian.py lines 69–85): the union of the listed Unicode ranges. -/
def isEmojiChar (c : Char) : Bool :=
  let n := c.toNat
  (0x1F600 ≤ n && n ≤ 0x1F64F) ||   -- emoticons
  (0x1F300 ≤ n && n ≤ 0x1F5FF) ||   -- symbols & pictographs
  (0x1F680 ≤ n && n ≤ 0x1F6FF) ||   -- transport & map
  (0x1F1E0 ≤ n && n ≤ 0x1F1FF) ||   -- flags
  (0x2702 ≤ n && n ≤ 0x27B0) ||     -- dingbats
  (0x24C2 ≤ n && n ≤ 0x1F251) ||    -- enclosed characters
  (0x1F900 ≤ n && n ≤ 0x1F9FF) ||   -- supplemental
  (0x1FA00 ≤ n && n ≤ 0x1FA6F) ||   -- chess, extended-A
  (0x1FA70 ≤ n && n ≤ 0x1FAFF) ||   -- extended-B
  (0x2600 ≤ n && n ≤ 0x26FF) ||     -- misc symbols
  (0xFE00 ≤ n && n ≤ 0xFE0F) ||     -- variation selectors
  (n = 0x200D)                      -- ZWJ

/-- Count the maximal runs of characters satisfying `p`; the flag records
whether the previous character satisfied `p`. `re.findall` of a pattern
of the form `[class]+` returns one match per maximal run, and
`str.split()` returns one word per maximal run of non-whitespace. -/
def countRunsAux (p : Char → Bool) : Bool → List Char → ℕ
  | _, [] => 0
  | prev, c :: cs =>
      (if p c && !prev then 1 else 0) + countRunsAux p (p c) cs

/-- Number of maximal contiguous runs of characters satisfying `p`. -/
def countRuns (p : Char → Bool) (s : List Char) : ℕ :=
  countRunsAux p false s

/-- `len(EMOJI_PATTERN.findall(s))`: the number of maximal contiguous
runs of covered characters in `s`. -/
def emojiMatchCount (s : List Char) : ℕ :=
  countRuns isEmojiChar s

/-- `len(s.split())`: the number of whitespace-delimited words. -/
def wordCount (s : List Char) : ℕ :=
  countRuns (fun c => !isPySpace c) s

/-- `not s.strip()`: the content is empty or all whitespace. -/
def isBlank (s : List Char) : Bool :=
  s.all isPySpace

/-- Embedding of `MessageModel` (state.py): the fields the statistics
engine reads. `epochSeconds` is the absolute timestamp in seconds, so
`(a.timestamp - b.timestamp).total_seconds()` is the difference of the
`epochSeconds`; `hour` is the datetime's hour-of-day, always in 0..23. -/
structure MessageModel where
  sender_id : String
  sender_name : String
  content : List Char
  epochSeconds : ℚ
  hour : Fin 24

/-! ### Timing statistics (`_compute_timing_stats`, historian.py 88–164) -/

/-- The gap `(b.timestamp - a.timestamp).total_seconds()` in seconds. -/
def gap (a b : MessageModel) : ℚ :=
  b.epochSeconds - a.epochSeconds

/-- Reply latencies (historian.py 102–109): for every message by the
target that is immediately preceded by a message from a different
participant, the time gap when strictly positive. -/
def latencies (pid : String) : List MessageModel → List ℚ
  | [] => []
  | [_] => []
  | a :: b :: rest =>
      (if b.sender_id = pid ∧ a.sender_id ≠ pid ∧ 0 < gap a b
       then [gap a b] else []) ++ latencies pid (b :: rest)

/-- `avg_latency` (historian.py 111): mean of the latencies, 0.0 if none. -/
def avgLatency (pid : String) (msgs : List MessageModel) : ℚ :=
  let ls := latencies pid msgs
  if ls.length ≠ 0 then ls.sum / ls.length else 0

/-- The target participant's own messages, in timeline order
(`participant_msgs`, historian.py 97). -/
def participantMsgs (pid : String) (msgs : List MessageModel) : List MessageModel :=
  msgs.filter (fun m => m.sender_id = pid)

/-- The hours of the target's messages, in timeline order. -/
def participantHours (pid : String) (msgs : List MessageModel) : List ℕ :=
  (participantMsgs pid msgs).map (fun m => m.hour.val)

/-- `hour_counts[h]`: how many of the target's messages fall in hour `h`
(historian.py 114–116). -/
def hourCount (pid : String) (msgs : List MessageModel) (h : ℕ) : ℕ :=
  (participantHours pid msgs).count h

/-- The distinct hours in order of first appearance: the iteration order
of the Python `defaultdict` built at historian.py 114–116. -/
def distinctFirst : List ℕ → List ℕ → List ℕ
  | _, [] => []
  | seen, h :: rest =>
      if h ∈ seen then distinctFirst seen rest
      else h :: distinctFirst (h :: seen) rest

/-- Keys of `hour_counts` in Python dict (insertion) order. -/
def hourKeys (pid : String) (msgs : List MessageModel) : List ℕ :=
  distinctFirst [] (participantHours pid msgs)

/-- Stable insertion used to model Python's stable `sorted(...,
key=count, reverse=True)`: `x` goes after every element of at least
equal count. -/
def insertDesc (cnt : ℕ → ℕ) (x : ℕ) : List ℕ → List ℕ
  | [] => [x]
  | y :: ys => if cnt x ≤ cnt y then y :: insertDesc cnt x ys else x :: y :: ys

/-- Stable sort by count descending: Python's
`sorted(hour_counts.items(), key=lambda x: x[1], reverse=True)`
(historian.py 118) keeps equal-count keys in dict order. -/
def sortByCountDesc (cnt : ℕ → ℕ) (l : List ℕ) : List ℕ :=
  l.foldl (fun acc x => insertDesc cnt x acc) []

/-- `peak_hours` (historian.py 118–119): the hour values of the first
five entries of the sorted counts. -/
def peakHours (pid : String) (msgs : List MessageModel) : List ℕ :=
  (sortByCountDesc (hourCount pid msgs) (hourKeys pid msgs)).take 5

/-- Conversation counting loop body (historian.py 127–138) over the
tail of the timeline: returns (initiations, conversations) contributed
by messages after the first. -/
def convAux (pid : String) : MessageModel → List MessageModel → ℕ × ℕ
  | _, [] => (0, 0)
  | prev, m :: rest =>
      let r := convAux pid m rest
      if 3600 ≤ gap prev m then
        ((if m.sender_id = pid then 1 else 0) + r.1, 1 + r.2)
      else r

/-- `(initiations, total_conversations)` (historian.py 124–138): the
first message starts a conversation; each gap ≥ 3600 s starts another. -/
def convCounts (pid : String) : List MessageModel → ℕ × ℕ
  | [] => (0, 0)
  | m :: rest =>
      let r := convAux pid m rest
      ((if m.sender_id = pid then 1 else 0) + r.1, 1 + r.2)

/-- `init_rate` (historian.py 140). -/
def initRate (pid : String) (msgs : List MessageModel) : ℚ :=
  let c := convCounts pid msgs
  if 0 < c.2 then (c.1 : ℚ) / (c.2 : ℚ) else 0

/-- Batch-episode loop (historian.py 144–155) over the target's own
messages after the first, carrying the previous timestamp and the
current streak; a streak of length ≥ 3 that ends (also at sequence end)
counts one episode. -/
def batchLoop (prevT : ℚ) (streak : ℕ) : List MessageModel → ℕ
  | [] => if 3 ≤ streak then 1 else 0
  | m :: rest =>
      if m.epochSeconds - prevT ≤ 60 then
        batchLoop m.epochSeconds (streak + 1) rest
      else
        (if 3 ≤ streak then 1 else 0) + batchLoop m.epochSeconds 1 rest

/-- `batch_count` (historian.py 144–155) for the target's messages. -/
def batchCount (pid : String) (msgs : List MessageModel) : ℕ :=
  match participantMsgs pid msgs with
  | [] => 0
  | m :: rest => batchLoop m.epochSeconds 1 rest

/-- `is_batch` (historian.py 157): at least two batch episodes. -/
def isBatch (pid : String) (msgs : List MessageModel) : Bool :=
  2 ≤ batchCount pid msgs

/-- The dict returned by `_compute_timing_stats` (historian.py 159–164). -/
structure TimingStats where
  reply_latency_seconds : ℚ
  peak_activity_hours : List ℕ
  initiation_rate : ℚ
  batch_messaging : Bool
deriving DecidableEq, Repr

/-- `_compute_timing_stats(participant_id, all_messages)`
(historian.py 88–164). -/
def computeTimingStats (pid : String) (msgs : List MessageModel) : TimingStats :=
  { reply_latency_seconds := pyRound (avgLatency pid msgs) 1
    peak_activity_hours := peakHours pid msgs
    initiation_rate := pyRound (initRate pid msgs) 3
    batch_messaging := isBatch pid msgs }

/-! ### Linguistic statistics (`_compute_basic_linguistic_stats`,
historian.py 167–185) -/

/-- The dict returned by `_compute_basic_linguistic_stats`. -/
structure LinguisticStats where
  emoji_density : ℚ
  avg_word_count : ℕ
deriving DecidableEq, Repr

/-- The messages with non-blank content (`if not m.content.strip():
continue`, historian.py 176–177). -/
def textMsgs (pmsgs : List MessageModel) : List MessageModel :=
  pmsgs.filter (fun m => !isBlank m.content)

/-- `total_emojis` (historian.py 179): emoji matches summed over the
non-blank messages. -/
def totalEmojis (pmsgs : List MessageModel) : ℕ :=
  ((textMsgs pmsgs).map (fun m => emojiMatchCount m.content)).sum

/-- `total_words` (historian.py 180). -/
def totalWords (pmsgs : List MessageModel) : ℕ :=
  ((textMsgs pmsgs).map (fun m => wordCount m.content)).sum

/-- `text_messages` (historian.py 173, 178): the count of non-blank
messages. -/
def textMessages (pmsgs : List MessageModel) : ℕ :=
  (textMsgs pmsgs).length

/-- `_compute_basic_linguistic_stats(participant_msgs)`
(historian.py 167–185). -/
def computeBasicLinguisticStats (pmsgs : List MessageModel) : LinguisticStats :=
  let t := textMessages pmsgs
  { emoji_density := if t ≠ 0 then pyRound ((totalEmojis pmsgs : ℚ) / t) 2 else 0
    avg_word_count := if t ≠ 0 then totalWords pmsgs / t else 0 }

/-! ### Window comparator / anomaly detector -/

/-- `Anomaly` (state.py 44–49). -/
structure Anomaly where
  metric : String
  baseline : ℚ
  current : ℚ
  deviation_factor : ℚ
  description : String
deriving DecidableEq, Repr

/-- Modelled from the spec: the per-metric step of the Window Comparator
(spec §4.4); the comparator's implementation is not in the repository
snapshot, only the `Anomaly` model it fills (state.py 44–49). Skip the
metric when the baseline is 0; otherwise emit an `Anomaly` with
`deviation_factor = current / baseline` exactly when the ratio is ≥ 2.0
or ≤ 0.5. -/
def compareMetric (metric : String) (baseline current : ℚ) : Option Anomaly :=
  if baseline = 0 then none
  else
    let ratio := current / baseline
    if 2 ≤ ratio ∨ ratio ≤ 1/2 then
      some { metric := metric
             baseline := baseline
             current := current
             deviation_factor := ratio
             description := metric ++ " deviated: ratio " ++
               toString (pyRound ratio 1) ++ ", baseline " ++
               toString baseline ++ ", current " ++ toString current }
    else none

/-- Modelled from the spec: the Window Comparator over the three tracked
metrics — reply latency, emoji density, average word count (spec §4.4).
Each metric is compared independently; 0 to 3 anomalies result. -/
def detectAnomalies (baseLat curLat baseEmoji curEmoji baseWords curWords : ℚ) :
    List Anomaly :=
  (compareMetric "reply_latency" baseLat curLat).toList ++
  (compareMetric "emoji_density" baseEmoji curEmoji).toList ++
  (compareMetric "avg_word_count" baseWords curWords).toList

/-! ### Profile assembly (`historian_node`, historian.py 188–266) -/

/-- `TypingStyle` (imported by historian.py from state; the class is not
in the snapshot's state.py, its fields are those read and written at
historian.py 252–253, 259–260 and spec §3). Non-numeric fields are
opaque enrichment supplied by the LLM. -/
structure TypingStyle where
  emoji_density : ℚ
  avg_word_count : ℕ
  formality_level : String
  use_of_slang : Bool
  punctuation_style : String
  jargon_used : List String
deriving DecidableEq, Repr

/-- `CommunicationPatterns` (imported by historian.py from state; fields
from historian.py 248–251 and the system prompt's responsiveness
field). -/
structure CommunicationPatterns where
  reply_latency_seconds : ℚ
  peak_activity_hours : List ℕ
  initiation_rate : ℚ
  batch_messaging : Bool
  responsiveness : String
deriving DecidableEq, Repr

/-- `ParticipantProfile` (imported by historian.py from state; fields
from historian.py 246–263 and spec §3 BehavioralProfile). -/
structure ParticipantProfile where
  sender_id : String
  sender_name : String
  typing_style : TypingStyle
  communication_patterns : CommunicationPatterns
  sentiment_tone : String
  top_topics : List String
deriving DecidableEq, Repr

/-- The override step of `historian_node` (historian.py 245–253): the
LLM-returned `profile` has its identity and six numeric fields
overwritten with the deterministically computed statistics. -/
def overrideProfile (pid pname : String) (timing : TimingStats)
    (ling : LinguisticStats) (profile : ParticipantProfile) : ParticipantProfile :=
  { profile with
    sender_id := pid
    sender_name := pname
    communication_patterns :=
      { profile.communication_patterns with
        reply_latency_seconds := timing.reply_latency_seconds
        peak_activity_hours := timing.peak_activity_hours
        initiation_rate := timing.initiation_rate
        batch_messaging := timing.batch_messaging }
    typing_style :=
      { profile.typing_style with
        emoji_density := ling.emoji_density
        avg_word_count := ling.avg_word_count } }

/-- The per-participant body of `historian_node` (historian.py 208–255),
with the LLM call abstracted as an arbitrary returned profile `llmOut`:
statistics are computed from the messages, then override the LLM's
values. -/
def historianAssemble (pid pname : String) (msgs : List MessageModel)
    (llmOut : ParticipantProfile) : ParticipantProfile :=
  overrideProfile pid pname (computeTimingStats pid msgs)
    (computeBasicLinguisticStats (participantMsgs pid msgs)) llmOut

/-! ### Concrete timelines used in the scenario checks -/

/-- Build a message with the given sender, timestamp and hour. -/
def mkMsg (sid : String) (t : ℚ) (h : Fin 24) (c : List Char) : MessageModel :=
  { sender_id := sid, sender_name := sid, content := c, epochSeconds := t, hour := h }

/-- Two messages from A in hours 5 and then 3, one each: an equal-count
tie where hour 5 appears first in the timeline. -/
def tieTimeline : List MessageModel :=
  [mkMsg "A" 0 5 ['x'], mkMsg "A" 100 3 ['x']]

/-- The spec's reply-latency scenario: A at t=0, B at t=100, A at t=150
(gaps 100 s then 50 s). -/
def replyTimeline : List MessageModel :=
  [mkMsg "A" 0 0 ['x'], mkMsg "B" 100 0 ['x'], mkMsg "A" 150 0 ['x']]

/-- The spec's segmentation scenario: inter-message gaps 0 s, 3700 s,
10 s. -/
def segTimeline : List MessageModel :=
  [mkMsg "A" 0 0 ['x'], mkMsg "B" 0 0 ['x'],
   mkMsg "A" 3700 0 ['x'], mkMsg "B" 3710 0 ['x']]

/-- The spec's batching scenario: one participant's messages at
t = 0, 10, 20, 200 s. -/
def batchTimeline : List MessageModel :=
  [mkMsg "A" 0 0 ['x'], mkMsg "A" 10 0 ['x'],
   mkMsg "A" 20 0 ['x'], mkMsg "A" 200 0 ['x']]

/-- The ranking the claim asserts for peak hours: count descending with
ties broken by hour value ascending. -/
def tieAscRanking (cnt : ℕ → ℕ) (l : List ℕ) : Prop :=
  l.Pairwise (fun a b => cnt b < cnt a ∨ (cnt a = cnt b ∧ a < b))

instance (cnt : ℕ → ℕ) (l : List ℕ) : Decidable (tieAscRanking cnt l) := by
  unfold tieAscRanking
  infer_instance

/-- The latency samples as the spec phrases them: over adjacent pairs of
the timeline, keep the gap of each pair whose second message is the
target's and whose first is someone else's, when strictly positive. -/
def specLatencies (pid : String) (msgs : List MessageModel) : List ℚ :=
  (msgs.zip msgs.tail).filterMap
    (fun ab => if ab.2.sender_id = pid ∧ ab.1.sender_id ≠ pid ∧ 0 < gap ab.1 ab.2
               then some (gap ab.1 ab.2) else none)

/-- The batch-episode scan as the claim phrases it, on the participant's
own timestamp sequence: a streak counter increments when the gap to the
previous own message is ≤ 60 s and resets to 1 otherwise; an episode is
counted each time a streak of length ≥ 3 ends, also at sequence end. -/
def specEpisodesLoop (prevT : ℚ) (streak : ℕ) : List ℚ → ℕ
  | [] => if 3 ≤ streak then 1 else 0
  | t :: ts =>
      if t - prevT ≤ 60 then specEpisodesLoop t (streak + 1) ts
      else (if 3 ≤ streak then 1 else 0) + specEpisodesLoop t 1 ts

/-- Episode count of the claim's scan over a timestamp sequence. -/
def specEpisodes : List ℚ → ℕ
  | [] => 0
  | t :: ts => specEpisodesLoop t 1 ts

/-- The positions at which a maximal emoji run starts: pairs of
(previous character is covered, this character is covered) where the
current is covered and the previous is not. -/
def runStarts (p : Char → Bool) (s : List Char) : ℕ :=
  ((false :: s.map p).zip (s.map p)).countP (fun pc => pc.2 && !pc.1)

/-! ### Rounding lemmas -/

theorem rhe_eq_floor_or (x : ℚ) : rhe x = ⌊x⌋ ∨ rhe x = ⌊x⌋ + 1 := by
  unfold rhe
  split
  · exact Or.inl rfl
  · split
    · exact Or.inr rfl
    · split
      · exact Or.inl rfl
      · exact Or.inr rfl

theorem abs_rhe_sub_le (x : ℚ) : |(rhe x : ℚ) - x| ≤ 1/2 := by
  have hfl : (⌊x⌋ : ℚ) ≤ x := Int.floor_le x
  have hfu : x < ⌊x⌋ + 1 := Int.lt_floor_add_one x
  unfold rhe
  split
  · rw [abs_sub_comm, abs_of_nonneg (by linarith)]
    linarith [show x - (⌊x⌋ : ℚ) < 1/2 by linarith]
  · rename_i h1
    push_neg at h1
    split
    · push_cast
      rw [abs_of_nonneg (by linarith)]
      rename_i h2
      linarith
    · rename_i h2
      push_neg at h2
      have heq : x - (⌊x⌋ : ℚ) = 1/2 := le_antisymm h2 h1
      split
      · rw [abs_sub_comm, abs_of_nonneg (by linarith)]
        linarith
      · push_cast
        rw [abs_of_nonneg (by linarith)]
        linarith

theorem rhe_nonneg {x : ℚ} (h : 0 ≤ x) : 0 ≤ rhe x := by
  have hfl : 0 ≤ ⌊x⌋ := Int.floor_nonneg.mpr h
  rcases rhe_eq_floor_or x with he | he <;> omega

theorem rhe_le_of_le {x : ℚ} {k : ℤ} (h : x ≤ (k : ℚ)) : rhe x ≤ k := by
  have hfl : ⌊x⌋ ≤ k := by
    have := Int.floor_mono h
    simpa using this
  have hfx : (⌊x⌋ : ℚ) ≤ x := Int.floor_le x
  unfold rhe
  split
  · exact hfl
  · rename_i h1
    push_neg at h1
    have hlt : (⌊x⌋ : ℚ) < x := by linarith
    have hltk : ⌊x⌋ < k := by
      by_contra hc
      push_neg at hc
      have : (k : ℚ) ≤ (⌊x⌋ : ℚ) := by exact_mod_cast hc
      linarith
    split
    · omega
    · split
      · exact hfl
      · omega

theorem pyRound_nonneg {x : ℚ} (n : ℕ) (h : 0 ≤ x) : 0 ≤ pyRound x n := by
  unfold pyRound
  have h10 : (0:ℚ) < 10 ^ n := by positivity
  have hy : 0 ≤ x * 10 ^ n := by positivity
  have := rhe_nonneg hy
  have : (0:ℚ) ≤ (rhe (x * 10 ^ n) : ℚ) := by exact_mod_cast this
  positivity

theorem pyRound_le_one {x : ℚ} (n : ℕ) (h : x ≤ 1) : pyRound x n ≤ 1 := by
  unfold pyRound
  have h10 : (0:ℚ) < 10 ^ n := by positivity
  have hy : x * 10 ^ n ≤ ((10 ^ n : ℤ) : ℚ) := by
    push_cast
    nlinarith
  have hr : rhe (x * 10 ^ n) ≤ (10 ^ n : ℤ) := rhe_le_of_le hy
  have hr' : ((rhe (x * 10 ^ n) : ℤ) : ℚ) ≤ ((10 ^ n : ℤ) : ℚ) := by exact_mod_cast hr
  rw [div_le_one h10]
  push_cast at hr' ⊢
  linarith

theorem abs_pyRound_sub_le (x : ℚ) (n : ℕ) :
    |pyRound x n - x| ≤ 1 / (2 * 10 ^ n) := by
  unfold pyRound
  have h10 : (0:ℚ) < 10 ^ n := by positivity
  have key : (rhe (x * 10 ^ n) : ℚ) / 10 ^ n - x
      = ((rhe (x * 10 ^ n) : ℚ) - x * 10 ^ n) / 10 ^ n := by
    rw [sub_div]
    congr 1
    rw [mul_div_assoc, div_self (ne_of_gt h10), mul_one]
  rw [key, abs_div, abs_of_pos h10, div_le_div_iff h10 (by positivity)]
  have := abs_rhe_sub_le (x * 10 ^ n)
  nlinarith [abs_nonneg ((rhe (x * 10 ^ n) : ℚ) - x * 10 ^ n)]

/-- A two-message timeline whose single latency sample is 1/8 s, so the
1-decimal rounding visibly changes the value. -/
def roundDemoTimeline : List MessageModel :=
  [mkMsg "B" 0 0 ['x'], mkMsg "A" (1/8) 0 ['x']]

/-- C10: the dict returned by `_compute_timing_stats` does not carry the
exact computed values: `reply_latency_seconds` is the mean latency
rounded to 1 decimal place and `initiation_rate` is the initiation
ratio rounded to 3 decimal places, so each returned value differs from
the exact mean/ratio by at most half of the corresponding rounding unit
(1/20 s resp. 1/2000), and on a concrete timeline the returned latency
really differs from the exact mean. -/
theorem timing_stats_values_are_rounded (pid : String) (msgs : List MessageModel) :
    (computeTimingStats pid msgs).reply_latency_seconds
        = pyRound (avgLatency pid msgs) 1 ∧
    (computeTimingStats pid msgs).initiation_rate
        = pyRound (initRate pid msgs) 3 ∧
    |(computeTimingStats pid msgs).reply_latency_seconds - avgLatency pid msgs|
        ≤ 1/20 ∧
    |(computeTimingStats pid msgs).initiation_rate - initRate pid msgs|
        ≤ 1/2000 ∧
    (computeTimingStats "A" roundDemoTimeline).reply_latency_seconds
        ≠ avgLatency "A" roundDemoTimeline := by
  refine ⟨rfl, rfl, ?_, ?_, ?_⟩
  · have h := abs_pyRound_sub_le (avgLatency pid msgs) 1
    norm_num at h
    simpa [computeTimingStats] using h
  · have h := abs_pyRound_sub_le (initRate pid msgs) 3
    norm_num at h
    simpa [computeTimingStats] using h
  · have h1 : avgLatency "A" roundDemoTimeline = 1/8 := by
      simp [avgLatency, latencies, roundDemoTimeline, mkMsg, gap]
    have h2 : (computeTimingStats "A" roundDemoTimeline).reply_latency_seconds
        = 1/10 := by
      show pyRound (avgLatency "A" roundDemoTimeline) 1 = 1/10
      rw [h1]
      norm_num [pyRound, rhe]
    rw [h1, h2]
    norm_num

/-- C3: noninterference of the override step in `historian_node`: the six
numeric fields of the assembled profile — reply_latency_seconds,
peak_activity_hours, initiation_rate, batch_messaging, emoji_density,
avg_word_count — are identical across any two runs whose LLM enrichment
returned different profiles, and always equal the deterministically
computed statistics. -/
theorem historian_override_noninterference (pid pname : String)
    (msgs : List MessageModel) (p q : ParticipantProfile) :
    ((historianAssemble pid pname msgs p).communication_patterns.reply_latency_seconds
        = (historianAssemble pid pname msgs q).communication_patterns.reply_latency_seconds ∧
     (historianAssemble pid pname msgs p).communication_patterns.peak_activity_hours
        = (historianAssemble pid pname msgs q).communication_patterns.peak_activity_hours ∧
     (historianAssemble pid pname msgs p).communication_patterns.initiation_rate
        = (historianAssemble pid pname msgs q).communication_patterns.initiation_rate ∧
     (historianAssemble pid pname msgs p).communication_patterns.batch_messaging
        = (historianAssemble pid pname msgs q).communication_patterns.batch_messaging ∧
     (historianAssemble pid pname msgs p).typing_style.emoji_density
        = (historianAssemble pid pname msgs q).typing_style.emoji_density ∧
     (historianAssemble pid pname msgs p).typing_style.avg_word_count
        = (historianAssemble pid pname msgs q).typing_style.avg_word_count) ∧
    ((historianAssemble pid pname msgs p).communication_patterns.reply_latency_seconds
        = (computeTimingStats pid msgs).reply_latency_seconds ∧
     (historianAssemble pid pname msgs p).communication_patterns.peak_activity_hours
        = (computeTimingStats pid msgs).peak_activity_hours ∧
     (historianAssemble pid pname msgs p).communication_patterns.initiation_rate
        = (computeTimingStats pid msgs).initiation_rate ∧
     (historianAssemble pid pname msgs p).communication_patterns.batch_messaging
        = (computeTimingStats pid msgs).batch_messaging ∧
     (historianAssemble pid pname msgs p).typing_style.emoji_density
        = (computeBasicLinguisticStats (participantMsgs pid msgs)).emoji_density ∧
     (historianAssemble pid pname msgs p).typing_style.avg_word_count
        = (computeBasicLinguisticStats (participantMsgs pid msgs)).avg_word_count) := by
  exact ⟨⟨rfl, rfl, rfl, rfl, rfl, rfl⟩, ⟨rfl, rfl, rfl, rfl, rfl, rfl⟩⟩

/-- C2: for each tracked metric the window comparison emits no Anomaly
when the baseline is 0, whatever the current value; when the baseline is
nonzero, an Anomaly with `deviation_factor = current/baseline` is
emitted iff the ratio is ≥ 2.0 or ≤ 0.5; and the three tracked metrics
are compared independently, the emitted list being exactly the per-metric
results for reply latency, emoji density and average word count. -/
theorem anomaly_zero_baseline_and_threshold (metric : String) (baseline current : ℚ) :
    (baseline = 0 → compareMetric metric baseline current = none) ∧
    (baseline ≠ 0 →
      ((∃ a, compareMetric metric baseline current = some a ∧
             a.deviation_factor = current / baseline) ↔
        (2 ≤ current / baseline ∨ current / baseline ≤ 1/2))) ∧
    (∀ bl cl be ce bw cw : ℚ, ∀ a : Anomaly,
      a ∈ detectAnomalies bl cl be ce bw cw ↔
        (compareMetric "reply_latency" bl cl = some a ∨
         compareMetric "emoji_density" be ce = some a ∨
         compareMetric "avg_word_count" bw cw = some a)) := by
  refine ⟨fun h => by simp [compareMetric, h], fun h => ?_, fun bl cl be ce bw cw a => ?_⟩
  · constructor
    · rintro ⟨a, ha, -⟩
      by_contra ht
      simp only [compareMetric, if_neg h, if_neg ht] at ha
      exact Option.noConfusion ha
    · intro ht
      refine ⟨{ metric := metric, baseline := baseline, current := current,
                deviation_factor := current / baseline,
                description := metric ++ " deviated: ratio " ++
                  toString (pyRound (current / baseline) 1) ++ ", baseline " ++
                  toString baseline ++ ", current " ++ toString current }, ?_, rfl⟩
      simp only [compareMetric, if_neg h, if_pos ht]
  · simp [detectAnomalies, Option.mem_toList, or_assoc]

/-- Witness for C2 at concrete values: baseline 0 with current 100 emits
nothing; baseline 10 with current 20 emits an anomaly of factor 2. -/
theorem anomaly_zero_baseline_and_threshold_witness :
    compareMetric "reply_latency" 0 100 = none ∧
    (∃ a, compareMetric "reply_latency" 10 20 = some a ∧
          a.deviation_factor = 20 / 10) := by
  constructor
  · exact (anomaly_zero_baseline_and_threshold "reply_latency" 0 100).1 rfl
  · exact ((anomaly_zero_baseline_and_threshold "reply_latency" 10 20).2.1
      (by norm_num)).mpr (by norm_num)

/-! ### Reply latency (C4) -/

theorem latencies_eq_spec (pid : String) :
    ∀ msgs, latencies pid msgs = specLatencies pid msgs
  | [] => rfl
  | [_] => rfl
  | a :: b :: rest => by
      have ih := latencies_eq_spec pid (b :: rest)
      simp only [latencies, specLatencies, List.tail_cons, List.zip_cons_cons,
        List.filterMap_cons] at ih ⊢
      by_cases hc : b.sender_id = pid ∧ a.sender_id ≠ pid ∧ 0 < gap a b
      · rw [if_pos hc, if_pos hc, ih]
        rfl
      · rw [if_neg hc, if_neg hc, ih]
        rfl

theorem latencies_nil_of_single (pid : String) :
    ∀ msgs, (∀ m ∈ msgs, m.sender_id = pid) → latencies pid msgs = []
  | [], _ => rfl
  | [_], _ => rfl
  | a :: b :: rest, h => by
      have ha : a.sender_id = pid := h a (by simp)
      have hcond : ¬(b.sender_id = pid ∧ a.sender_id ≠ pid ∧ 0 < gap a b) := by
        rintro ⟨-, hne, -⟩
        exact hne ha
      show (if _ then _ else _) ++ _ = ([] : List ℚ)
      rw [if_neg hcond, List.nil_append]
      exact latencies_nil_of_single pid (b :: rest)
        (fun m hm => h m (List.mem_cons_of_mem a hm))

/-- C4: the average reply latency is the arithmetic mean of the strictly
positive gaps from each target message immediately preceded by a
different participant's message to that predecessor — pairs where the
target's message is first or follows the target's own message are
excluded, not zero-filled — and it is 0.0 when no such gap exists; on
the A→B→A timeline with gaps 100 s then 50 s only the B→A gap of 50 s
is sampled. -/
theorem reply_latency_mean_of_adjacent_gaps (pid : String) (msgs : List MessageModel) :
    latencies pid msgs = specLatencies pid msgs ∧
    (latencies pid msgs ≠ [] →
      avgLatency pid msgs
        = (latencies pid msgs).sum / ((latencies pid msgs).length : ℚ)) ∧
    (latencies pid msgs = [] → avgLatency pid msgs = 0) ∧
    ((∀ m ∈ msgs, m.sender_id = pid) → avgLatency pid msgs = 0) ∧
    latencies "A" replyTimeline = [50] ∧
    avgLatency "A" replyTimeline = 50 := by
  refine ⟨latencies_eq_spec pid msgs, ?_, ?_, ?_, ?_, ?_⟩
  · intro h
    have hlen : (latencies pid msgs).length ≠ 0 := by
      simpa [List.length_eq_zero] using h
    simp only [avgLatency, if_pos hlen]
  · intro h
    simp only [avgLatency, h, List.length_nil, ne_eq, not_true_eq_false,
      if_false]
  · intro h
    have hnil := latencies_nil_of_single pid msgs h
    simp only [avgLatency, hnil, List.length_nil, ne_eq, not_true_eq_false,
      if_false]
  · simp [latencies, replyTimeline, mkMsg, gap] <;> norm_num
  · simp [avgLatency, latencies, replyTimeline, mkMsg, gap] <;> norm_num

/-- Witness for C4: on the A→B→A scenario timeline the latency list is
non-empty, so the mean formula applies and yields 50; on a timeline
where every message is the target's own, the average is 0. -/
theorem reply_latency_mean_of_adjacent_gaps_witness :
    avgLatency "A" replyTimeline
      = (latencies "A" replyTimeline).sum
          / ((latencies "A" replyTimeline).length : ℚ) ∧
    avgLatency "A" batchTimeline = 0 := by
  constructor
  · exact (reply_latency_mean_of_adjacent_gaps "A" replyTimeline).2.1
      (by simp [latencies, replyTimeline, mkMsg, gap] <;> norm_num)
  · exact (reply_latency_mean_of_adjacent_gaps "A" batchTimeline).2.2.2.1
      (by intro m hm; fin_cases hm <;> rfl)

/-! ### Conversation segmentation (C5) -/

theorem convAux_total_eq (pid : String) :
    ∀ (l : List MessageModel) (prev : MessageModel),
      (convAux pid prev l).2
        = ((prev :: l).zip l).countP (fun ab => decide (3600 ≤ gap ab.1 ab.2))
  | [], _ => rfl
  | m :: rest, prev => by
      have ih := convAux_total_eq pid rest m
      by_cases hg : 3600 ≤ gap prev m <;>
        simp [convAux, List.countP_cons, ih, hg] <;> omega

theorem convAux_init_le (pid : String) :
    ∀ (l : List MessageModel) (prev : MessageModel),
      (convAux pid prev l).1 ≤ (convAux pid prev l).2
  | [], _ => le_refl 0
  | m :: rest, prev => by
      have ih := convAux_init_le pid rest m
      by_cases hg : 3600 ≤ gap prev m <;>
        by_cases hs : m.sender_id = pid <;>
          simp [convAux, hg, hs] <;> omega

theorem convCounts_init_le (pid : String) (msgs : List MessageModel) :
    (convCounts pid msgs).1 ≤ (convCounts pid msgs).2 := by
  cases msgs with
  | nil => exact le_refl 0
  | cons m rest =>
      have h := convAux_init_le pid rest m
      simp only [convCounts]
      by_cases hs : m.sender_id = pid <;> simp [hs] <;> omega

/-- C5: for a non-empty timeline the conversation count is 1 (for the
first message) plus the number of adjacent pairs at least 3600 s apart;
the initiation rate is initiations over conversations — a well-formed
ratio in which initiations never exceed conversations — and is 0.0 when
there are zero conversations; the timeline with inter-message gaps
[0 s, 3700 s, 10 s] yields exactly 2 conversations. -/
theorem conversation_count_and_rate (pid : String) (msgs : List MessageModel) :
    (msgs ≠ [] →
      (convCounts pid msgs).2
        = 1 + (msgs.zip msgs.tail).countP (fun ab => decide (3600 ≤ gap ab.1 ab.2))) ∧
    (convCounts pid msgs).1 ≤ (convCounts pid msgs).2 ∧
    (0 < (convCounts pid msgs).2 →
      initRate pid msgs
        = ((convCounts pid msgs).1 : ℚ) / ((convCounts pid msgs).2 : ℚ)) ∧
    ((convCounts pid msgs).2 = 0 → initRate pid msgs = 0) ∧
    (convCounts "A" segTimeline).2 = 2 := by
  refine ⟨?_, convCounts_init_le pid msgs, ?_, ?_, ?_⟩
  · intro h
    cases msgs with
    | nil => exact absurd rfl h
    | cons m rest =>
        have ht := convAux_total_eq pid rest m
        simp only [convCounts, List.tail_cons]
        omega
  · intro h
    simp only [initRate, if_pos h]
  · intro h
    simp only [initRate, h]
    norm_num
  · simp [convCounts, convAux, segTimeline, mkMsg, gap] <;> norm_num

/-- Witness for C5: on the segmentation scenario the count formula and
the ratio formula apply concretely. -/
theorem conversation_count_and_rate_witness :
    (convCounts "A" segTimeline).2
      = 1 + (segTimeline.zip segTimeline.tail).countP
              (fun ab => decide (3600 ≤ gap ab.1 ab.2)) ∧
    initRate "A" segTimeline
      = ((convCounts "A" segTimeline).1 : ℚ) / ((convCounts "A" segTimeline).2 : ℚ) ∧
    initRate "A" [] = 0 := by
  refine ⟨(conversation_count_and_rate "A" segTimeline).1 (by simp [segTimeline]),
          (conversation_count_and_rate "A" segTimeline).2.2.1 ?_,
          (conversation_count_and_rate "A" []).2.2.2.1 rfl⟩
  simp [convCounts, convAux, segTimeline, mkMsg, gap] <;> norm_num

/-! ### Batch-episode detection (C6) -/

theorem batchLoop_eq_specLoop :
    ∀ (l : List MessageModel) (prevT : ℚ) (streak : ℕ),
      batchLoop prevT streak l
        = specEpisodesLoop prevT streak (l.map (fun m => m.epochSeconds))
  | [], _, _ => rfl
  | m :: rest, prevT, streak => by
      simp only [batchLoop, specEpisodesLoop, List.map_cons]
      by_cases hg : m.epochSeconds - prevT ≤ 60
      · rw [if_pos hg, if_pos hg, batchLoop_eq_specLoop rest]
      · rw [if_neg hg, if_neg hg, batchLoop_eq_specLoop rest]

/-- C6: the batch classifier scans only the target's own messages,
incrementing a streak counter when the gap to the previous own message
is ≤ 60 s and resetting to 1 otherwise; one episode is counted each time
a streak of length ≥ 3 ends, including at sequence end, and the target
is a Batcher exactly when the episode count is ≥ 2 (else a Streamer);
the scenario with one participant's messages at [0 s, 10 s, 20 s, 200 s]
yields exactly one episode, hence Streamer. -/
theorem batching_episodes_and_classification (pid : String)
    (msgs : List MessageModel) :
    batchCount pid msgs
      = specEpisodes ((participantMsgs pid msgs).map (fun m => m.epochSeconds)) ∧
    (isBatch pid msgs = true ↔ 2 ≤ batchCount pid msgs) ∧
    batchCount "A" batchTimeline = 1 ∧
    isBatch "A" batchTimeline = false := by
  refine ⟨?_, ?_, ?_, ?_⟩
  · cases hp : participantMsgs pid msgs with
    | nil =>
        unfold batchCount
        rw [hp]
        simp [specEpisodes]
    | cons m rest =>
        simp only [batchCount, hp, List.map_cons, specEpisodes]
        exact batchLoop_eq_specLoop rest m.epochSeconds 1
  · simp [isBatch]
  · simp [batchCount, participantMsgs, batchTimeline, mkMsg, batchLoop, gap]
      <;> norm_num
  · simp [isBatch, batchCount, participantMsgs, batchTimeline, mkMsg,
      batchLoop, gap] <;> norm_num

/-! ### Linguistic statistics (C7) -/

/-- C7: blank (empty or all-whitespace) messages are excluded from both
numerator and denominator — prepending a blank message changes nothing —
`emoji_density` is total emoji matches over the count of non-blank
messages rounded to 2 decimal places (0.0 when there are none), and
`avg_word_count` is total word count over the count of non-blank
messages with truncating division (0 when there are none). -/
theorem linguistic_stats_formulas (pmsgs : List MessageModel) (m : MessageModel) :
    (isBlank m.content = true →
      computeBasicLinguisticStats (m :: pmsgs) = computeBasicLinguisticStats pmsgs) ∧
    (textMessages pmsgs ≠ 0 →
      (computeBasicLinguisticStats pmsgs).emoji_density
          = pyRound ((totalEmojis pmsgs : ℚ) / (textMessages pmsgs : ℚ)) 2 ∧
      (computeBasicLinguisticStats pmsgs).avg_word_count
          = totalWords pmsgs / textMessages pmsgs) ∧
    (textMessages pmsgs = 0 →
      (computeBasicLinguisticStats pmsgs).emoji_density = 0 ∧
      (computeBasicLinguisticStats pmsgs).avg_word_count = 0) := by
  refine ⟨?_, ?_, ?_⟩
  · intro h
    have hfilter : textMsgs (m :: pmsgs) = textMsgs pmsgs := by
      simp [textMsgs, List.filter_cons, h]
    simp only [computeBasicLinguisticStats, totalEmojis, totalWords,
      textMessages, hfilter]
  · intro h
    refine ⟨?_, ?_⟩ <;> simp [computeBasicLinguisticStats, h]
  · intro h
    simp only [computeBasicLinguisticStats, h]
    norm_num

/-- Witness for C7 on concrete inputs: a blank message prepended to a
two-message batch changes nothing, and the formulas evaluate — density
`round(1/2, 2) = 0.5` and word count `5 // 2 = 2`. -/
theorem linguistic_stats_formulas_witness :
    computeBasicLinguisticStats
        (mkMsg "A" 0 0 [' ', ' '] :: [mkMsg "A" 0 0 ['h', 'i']])
      = computeBasicLinguisticStats [mkMsg "A" 0 0 ['h', 'i']] ∧
    (computeBasicLinguisticStats [mkMsg "A" 0 0 ['h', 'i']]).emoji_density
      = pyRound ((totalEmojis [mkMsg "A" 0 0 ['h', 'i']] : ℚ)
          / (textMessages [mkMsg "A" 0 0 ['h', 'i']] : ℚ)) 2 ∧
    (computeBasicLinguisticStats []).emoji_density = 0 := by
  refine ⟨(linguistic_stats_formulas [mkMsg "A" 0 0 ['h', 'i']]
            (mkMsg "A" 0 0 [' ', ' '])).1 (by decide),
          ((linguistic_stats_formulas [mkMsg "A" 0 0 ['h', 'i']]
            (mkMsg "A" 0 0 [' ', ' '])).2.1 (by decide)).1,
          ((linguistic_stats_formulas [] (mkMsg "A" 0 0 [' ', ' '])).2.2 rfl).1⟩

/-! ### Emoji run counting (C8) -/

theorem countRunsAux_eq_countP (p : Char → Bool) :
    ∀ (s : List Char) (prev : Bool),
      countRunsAux p prev s
        = ((prev :: s.map p).zip (s.map p)).countP (fun pc => pc.2 && !pc.1)
  | [], _ => rfl
  | c :: cs, prev => by
      have ih := countRunsAux_eq_countP p cs (p c)
      simp only [countRunsAux, List.map_cons, List.zip_cons_cons,
        List.countP_cons, ih]
      cases hc : p c <;> cases prev <;> simp <;> omega

/-- C8: the emoji classifier is a total function of the input string
that counts each maximal contiguous run of covered characters as exactly
one match — a covered character opens a new match precisely when it is
not preceded by a covered character — and returns zero for any string
with no covered character; concretely, two adjacent emoji count once and
plain text counts zero. -/
theorem emoji_counts_maximal_runs (s : List Char) :
    emojiMatchCount s = runStarts isEmojiChar s ∧
    ((∀ c ∈ s, isEmojiChar c = false) → emojiMatchCount s = 0) ∧
    emojiMatchCount [Char.ofNat 0x1F600, Char.ofNat 0x1F600] = 1 ∧
    emojiMatchCount ['h', 'i'] = 0 := by
  refine ⟨countRunsAux_eq_countP isEmojiChar s false, ?_, by decide, by decide⟩
  intro h
  show countRunsAux isEmojiChar false s = 0
  rw [countRunsAux_eq_countP isEmojiChar s false]
  apply List.countP_eq_zero.mpr
  intro pc hpc
  have h2 := (List.of_mem_zip hpc).2
  simp only [List.mem_map] at h2
  obtain ⟨c, hc, hcp⟩ := h2
  simp [← hcp, h c hc]

/-- Witness for C8: applying the run-count theorem to a concrete
emoji-free string gives zero. -/
theorem emoji_counts_maximal_runs_witness :
    emojiMatchCount ['a', 'b', ' '] = 0 := by
  exact (emoji_counts_maximal_runs ['a', 'b', ' ']).2.1 (by decide)

/-! ### Safety bounds (C9) -/

theorem latencies_pos (pid : String) :
    ∀ msgs, ∀ x ∈ latencies pid msgs, 0 < x
  | [] => by simp [latencies]
  | [_] => by simp [latencies]
  | a :: b :: rest => by
      intro x hx
      simp only [latencies, List.mem_append] at hx
      rcases hx with hx | hx
      · split at hx
        · rename_i hc
          rw [List.mem_singleton] at hx
          exact hx ▸ hc.2.2
        · exact absurd hx (List.not_mem_nil x)
      · exact latencies_pos pid (b :: rest) x hx

theorem avgLatency_nonneg (pid : String) (msgs : List MessageModel) :
    0 ≤ avgLatency pid msgs := by
  simp only [avgLatency]
  split
  · apply div_nonneg
    · exact List.sum_nonneg (fun x hx => le_of_lt (latencies_pos pid msgs x hx))
    · positivity
  · exact le_refl 0

theorem initRate_bounds (pid : String) (msgs : List MessageModel) :
    0 ≤ initRate pid msgs ∧ initRate pid msgs ≤ 1 := by
  simp only [initRate]
  split
  · rename_i hpos
    constructor
    · positivity
    · rw [div_le_one (by exact_mod_cast hpos)]
      exact_mod_cast convCounts_init_le pid msgs
  · exact ⟨le_refl 0, by norm_num⟩

/-- C9: on every timeline (empty, single-message and single-participant
ones included) the computed statistics are defined and in range: the
average latency and its rounded form are ≥ 0, the initiation rate and
its rounded form lie in [0,1], emoji density and average word count are
≥ 0, and every division is guarded — each zero-denominator case is
explicitly defined to return the 0 fallback rather than raising. -/
theorem stats_nonneg_and_guarded (pid : String) (msgs pmsgs : List MessageModel) :
    0 ≤ avgLatency pid msgs ∧
    0 ≤ (computeTimingStats pid msgs).reply_latency_seconds ∧
    0 ≤ initRate pid msgs ∧
    initRate pid msgs ≤ 1 ∧
    (msgs ≠ [] →
      0 ≤ (computeTimingStats pid msgs).initiation_rate ∧
      (computeTimingStats pid msgs).initiation_rate ≤ 1) ∧
    0 ≤ (computeBasicLinguisticStats pmsgs).emoji_density ∧
    0 ≤ (computeBasicLinguisticStats pmsgs).avg_word_count ∧
    (latencies pid msgs = [] → avgLatency pid msgs = 0) ∧
    ((convCounts pid msgs).2 = 0 → initRate pid msgs = 0) ∧
    (textMessages pmsgs = 0 →
      (computeBasicLinguisticStats pmsgs).emoji_density = 0 ∧
      (computeBasicLinguisticStats pmsgs).avg_word_count = 0) := by
  refine ⟨avgLatency_nonneg pid msgs, ?_, (initRate_bounds pid msgs).1,
          (initRate_bounds pid msgs).2, ?_, ?_, Nat.zero_le _, ?_, ?_, ?_⟩
  · exact pyRound_nonneg 1 (avgLatency_nonneg pid msgs)
  · intro _
    exact ⟨pyRound_nonneg 3 (initRate_bounds pid msgs).1,
           pyRound_le_one 3 (initRate_bounds pid msgs).2⟩
  · simp only [computeBasicLinguisticStats]
    split
    · apply pyRound_nonneg
      positivity
    · exact le_refl 0
  · intro h
    simp only [avgLatency, h, List.length_nil, ne_eq, not_true_eq_false,
      if_false]
  · intro h
    simp only [initRate, h]
    norm_num
  · intro h
    simp only [computeBasicLinguisticStats, h]
    norm_num

/-- Witness for C9: the bounds and fallbacks evaluated on the concrete
A→B→A timeline and on the empty timeline. -/
theorem stats_nonneg_and_guarded_witness :
    (0 ≤ (computeTimingStats "A" replyTimeline).initiation_rate ∧
     (computeTimingStats "A" replyTimeline).initiation_rate ≤ 1) ∧
    avgLatency "A" [] = 0 ∧
    initRate "A" [] = 0 ∧
    ((computeBasicLinguisticStats []).emoji_density = 0 ∧
     (computeBasicLinguisticStats []).avg_word_count = 0) := by
  refine ⟨(stats_nonneg_and_guarded "A" replyTimeline []).2.2.2.2.1
            (by simp [replyTimeline]),
          (stats_nonneg_and_guarded "A" [] []).2.2.2.2.2.2.2.1 rfl,
          (stats_nonneg_and_guarded "A" [] []).2.2.2.2.2.2.2.2.1 rfl,
          (stats_nonneg_and_guarded "A" [] []).2.2.2.2.2.2.2.2.2 rfl⟩

/-! ### Peak activity hours (C1) -/

theorem mem_insertDesc (cnt : ℕ → ℕ) (x : ℕ) :
    ∀ (l : List ℕ) (z : ℕ), z ∈ insertDesc cnt x l ↔ z = x ∨ z ∈ l
  | [], z => by simp [insertDesc]
  | y :: ys, z => by
      simp only [insertDesc]
      split
      · rw [List.mem_cons, mem_insertDesc cnt x ys z, List.mem_cons]
        tauto
      · simp only [List.mem_cons]

theorem insertDesc_pairwise (cnt idx : ℕ → ℕ) (x : ℕ) :
    ∀ l : List ℕ,
      l.Pairwise (fun a b => cnt b < cnt a ∨ (cnt a = cnt b ∧ idx a < idx b)) →
      (∀ y ∈ l, idx y < idx x) →
      (insertDesc cnt x l).Pairwise
        (fun a b => cnt b < cnt a ∨ (cnt a = cnt b ∧ idx a < idx b))
  | [], _, _ => List.pairwise_singleton _ x
  | y :: ys, hp, hidx => by
      rw [List.pairwise_cons] at hp
      obtain ⟨hy, hys⟩ := hp
      simp only [insertDesc]
      split
      · rename_i hle
        rw [List.pairwise_cons]
        refine ⟨fun z hz => ?_, ?_⟩
        · rcases (mem_insertDesc cnt x ys z).mp hz with rfl | hz
          · rcases lt_or_eq_of_le hle with hlt | heq
            · exact Or.inl hlt
            · exact Or.inr ⟨heq.symm, hidx y (List.mem_cons_self y ys)⟩
          · exact hy z hz
        · exact insertDesc_pairwise cnt idx x ys hys
            (fun z hz => hidx z (List.mem_cons_of_mem y hz))
      · rename_i hgt
        push_neg at hgt
        rw [List.pairwise_cons]
        refine ⟨fun z hz => ?_, List.pairwise_cons.mpr ⟨hy, hys⟩⟩
        rcases List.mem_cons.mp hz with rfl | hz
        · exact Or.inl hgt
        · rcases hy z hz with h1 | ⟨h1, -⟩
          · exact Or.inl (lt_trans h1 hgt)
          · exact Or.inl (h1 ▸ hgt)

theorem mem_foldl_insert (cnt : ℕ → ℕ) :
    ∀ (rest acc : List ℕ) (z : ℕ),
      z ∈ rest.foldl (fun acc x => insertDesc cnt x acc) acc ↔ z ∈ acc ∨ z ∈ rest
  | [], acc, z => by simp
  | x :: rest, acc, z => by
      simp only [List.foldl_cons]
      rw [mem_foldl_insert cnt rest (insertDesc cnt x acc) z,
        mem_insertDesc cnt x acc z, List.mem_cons]
      tauto

theorem foldl_insert_pairwise (cnt idx : ℕ → ℕ) :
    ∀ (rest acc : List ℕ),
      acc.Pairwise (fun a b => cnt b < cnt a ∨ (cnt a = cnt b ∧ idx a < idx b)) →
      (∀ a ∈ acc, ∀ b ∈ rest, idx a < idx b) →
      rest.Pairwise (fun a b => idx a < idx b) →
      (rest.foldl (fun acc x => insertDesc cnt x acc) acc).Pairwise
        (fun a b => cnt b < cnt a ∨ (cnt a = cnt b ∧ idx a < idx b))
  | [], _, hacc, _, _ => hacc
  | x :: rest, acc, hacc, hcross, hrest => by
      simp only [List.foldl_cons]
      rw [List.pairwise_cons] at hrest
      apply foldl_insert_pairwise cnt idx rest (insertDesc cnt x acc)
      · exact insertDesc_pairwise cnt idx x acc hacc
          (fun y hy => hcross y hy x (List.mem_cons_self x rest))
      · intro a ha b hb
        rcases (mem_insertDesc cnt x acc a).mp ha with rfl | ha
        · exact hrest.1 b hb
        · exact hcross a ha b (List.mem_cons_of_mem x hb)
      · exact hrest.2

theorem mem_distinctFirst :
    ∀ (l seen : List ℕ) (x : ℕ),
      x ∈ distinctFirst seen l → x ∈ l ∧ x ∉ seen
  | [], _, x => by simp [distinctFirst]
  | h :: rest, seen, x => by
      simp only [distinctFirst]
      split
      · intro hx
        have hr := mem_distinctFirst rest seen x hx
        exact ⟨List.mem_cons_of_mem h hr.1, hr.2⟩
      · rename_i hns
        intro hx
        rcases List.mem_cons.mp hx with rfl | hx
        · exact ⟨List.mem_cons_self x rest, hns⟩
        · have hr := mem_distinctFirst rest (h :: seen) x hx
          exact ⟨List.mem_cons_of_mem h hr.1,
                 fun hc => hr.2 (List.mem_cons_of_mem h hc)⟩

theorem nodup_distinctFirst :
    ∀ (l seen : List ℕ), (distinctFirst seen l).Nodup
  | [], _ => List.nodup_nil
  | h :: rest, seen => by
      simp only [distinctFirst]
      split
      · exact nodup_distinctFirst rest seen
      · rw [List.nodup_cons]
        exact ⟨fun hc => (mem_distinctFirst rest (h :: seen) h hc).2
                 (List.mem_cons_self h seen),
               nodup_distinctFirst rest (h :: seen)⟩

theorem nodup_pairwise_indexOf :
    ∀ l : List ℕ, l.Nodup → l.Pairwise (fun a b => l.indexOf a < l.indexOf b)
  | [], _ => List.Pairwise.nil
  | x :: xs, h => by
      rw [List.nodup_cons] at h
      obtain ⟨hx, hxs⟩ := h
      rw [List.pairwise_cons]
      constructor
      · intro b hb
        have hxb : x ≠ b := fun hc => hx (hc ▸ hb)
        rw [List.indexOf_cons_self, List.indexOf_cons_ne xs hxb]
        exact Nat.succ_pos _
      · apply (nodup_pairwise_indexOf xs hxs).imp_of_mem
        intro a b ha hb hab
        have hxa : x ≠ a := fun hc => hx (hc ▸ ha)
        have hxb : x ≠ b := fun hc => hx (hc ▸ hb)
        rw [List.indexOf_cons_ne xs hxa, List.indexOf_cons_ne xs hxb]
        omega

/-- Counterexample to C1: on a timeline where the target's messages fall
once in hour 5 and then once in hour 3, the two hours tie on count, and
`_compute_timing_stats` returns [5, 3] — the Python dict insertion
(first-appearance) order — so ties are NOT broken by hour value
ascending. -/
theorem peak_hours_tie_counterexample :
    hourCount "A" tieTimeline 5 = 1 ∧
    hourCount "A" tieTimeline 3 = 1 ∧
    peakHours "A" tieTimeline = [5, 3] ∧
    ¬ tieAscRanking (hourCount "A" tieTimeline) (peakHours "A" tieTimeline) := by
  exact ⟨by decide, by decide, by decide, by decide⟩

/-- C1 as amended: `peak_activity_hours` is an ordered sequence of at
most 5 hour values in [0,23], ranked by the participant's message count
per hour descending, with ties between equally frequent hours broken by
the order in which the hours first appear in the participant's messages
(Python dict insertion order), not by hour value ascending. -/
theorem peak_hours_ranking (pid : String) (msgs : List MessageModel) :
    (peakHours pid msgs).length ≤ 5 ∧
    (∀ h ∈ peakHours pid msgs, h < 24) ∧
    (peakHours pid msgs).Pairwise (fun a b =>
      hourCount pid msgs b < hourCount pid msgs a ∨
      (hourCount pid msgs a = hourCount pid msgs b ∧
       (hourKeys pid msgs).indexOf a < (hourKeys pid msgs).indexOf b)) := by
  refine ⟨?_, ?_, ?_⟩
  · simpa [peakHours] using List.length_take_le 5
      (sortByCountDesc (hourCount pid msgs) (hourKeys pid msgs))
  · intro h hh
    have hmem : h ∈ sortByCountDesc (hourCount pid msgs) (hourKeys pid msgs) :=
      (List.take_sublist 5 _).subset hh
    rw [sortByCountDesc, mem_foldl_insert] at hmem
    rcases hmem with hmem | hmem
    · exact absurd hmem (List.not_mem_nil h)
    · have hph : h ∈ participantHours pid msgs :=
        (mem_distinctFirst (participantHours pid msgs) [] h hmem).1
      simp only [participantHours, List.mem_map] at hph
      obtain ⟨m, -, hm⟩ := hph
      exact hm ▸ m.hour.isLt
  · apply List.Pairwise.sublist (List.take_sublist 5 _)
    apply foldl_insert_pairwise (hourCount pid msgs)
      (fun h => (hourKeys pid msgs).indexOf h) (hourKeys pid msgs) []
    · exact List.Pairwise.nil
    · intro a ha
      exact absurd ha (List.not_mem_nil a)
    · exact nodup_pairwise_indexOf (hourKeys pid msgs)
        (nodup_distinctFirst (participantHours pid msgs) [])

/-- Witness for C1's amended theorem on the tie timeline: the output has
length ≤ 5, its member 5 is a valid hour, and the ranking holds. -/
theorem peak_hours_ranking_witness :
    (peakHours "A" tieTimeline).length ≤ 5 ∧ 5 < 24 := by
  exact ⟨(peak_hours_ranking "A" tieTimeline).1,
         (peak_hours_ranking "A" tieTimeline).2.1 5 (by decide)⟩

end SocialAutopilot
